import Mathlib

/-!
Verification of the native-dependency compatibility reconciler of this
repository (source: src/utils.ts). The functions `getLocalDepenencies`,
`getRemoteDepenencies` and `checkCompatibility` are shallowly embedded
below. Dynamic JavaScript values (parsed JSON, untrusted remote payloads)
are modelled by the inductive `JSValue`; JavaScript truthiness, `typeof`
and property access (including the `TypeError` thrown when destructuring
`null` or `undefined`) are modelled explicitly. The CLI aborts via
`program.error` after logging a descriptive message with `p.log.error`;
a run of `getLocalDepenencies` is therefore modelled as the list of error
messages it reports together with an optional result (`none` = the process
aborted). `getRemoteDepenencies` reports at most one message before
aborting, so it is modelled with `Except`.
-/

/-- Model of a dynamically typed JavaScript value (the image of JSON plus
`undefined`, which property access on objects lacking the key produces). -/
inductive JSValue where
  | null
  | undefined
  | bool (b : Bool)
  | num (n : Int)
  | str (s : String)
  | arr (elems : List JSValue)
  | obj (fields : List (String × JSValue))

/-- JavaScript `typeof`. Note `typeof null` and `typeof` of an array are
both the string "object". -/
def jsTypeof : JSValue → String
  | .null => "object"
  | .undefined => "undefined"
  | .bool _ => "boolean"
  | .num _ => "number"
  | .str _ => "string"
  | .arr _ => "object"
  | .obj _ => "object"

/-- JavaScript truthiness: `null`, `undefined`, `false`, `0` and the empty
string are falsy; arrays and objects (even empty ones) are truthy. -/
def truthy : JSValue → Bool
  | .null => false
  | .undefined => false
  | .bool b => b
  | .num n => !(n == 0)
  | .str s => !(s == "")
  | .arr _ => true
  | .obj _ => true

/-- Property access / destructuring. `none` models the `TypeError` thrown
when the target is `null` or `undefined`; on any other value the access
succeeds, yielding `undefined` when the key is absent (or the target is a
primitive). -/
def jsGet : JSValue → String → Option JSValue
  | .null, _ => none
  | .undefined, _ => none
  | .obj fields, k => some ((fields.lookup k).getD .undefined)
  | _, _ => some .undefined

/-- Total property access for values already known not to be `null` or
`undefined`. -/
def jsField (v : JSValue) (k : String) : JSValue :=
  (jsGet v k).getD .undefined

/-- JavaScript `Object.entries`: own enumerable entries of an object, the
indexed elements of an array, the indexed characters of a string, and `[]`
for other primitives. -/
def jsEntries : JSValue → List (String × JSValue)
  | .obj fields => fields
  | .arr xs => xs.enum.map (fun p => (toString p.1, p.2))
  | .str s => s.data.enum.map (fun p => (toString p.1, JSValue.str (String.mk [p.2])))
  | _ => []

/-- Read a string out of a value already validated to be a string. -/
def jsAsString : JSValue → String
  | .str s => s
  | _ => ""

/-- Error messages reported (via p.log.error / program.error, or an uncaught
TypeError printed by the runtime) by `getLocalDepenencies` in utils.ts. -/
inductive LocalErr where
  | manifestMissing
  | manifestMalformed
  | dependenciesSectionMissing
  | dependencyValueInvalid
  | installedPackagesMissing
  | dependencyFolderMissing
  | scanFailed
  | typeError
  deriving DecidableEq, Repr

/-- Environment seen by `getLocalDepenencies`: the filesystem reads it
performs. `packageJson` is the result of JSON.parse on ./package.json
(`none` = the parse threw). `listFiles` is `promiseFiles` on
./node_modules/(name) (`.error` = the recursive read rejected). -/
structure LocalFS where
  packageJsonExists : Bool
  packageJson : Option JSValue
  nodeModulesExists : Bool
  depFolderExists : String → Bool
  listFiles : String → Except Unit (List String)

/-- One element of the dependency list built by `getLocalDepenencies`.
`native = none` models the object `{name, version}` (no `native` field)
returned for a dependency whose node_modules folder is missing. -/
structure LocalDep where
  name : String
  version : String
  native : Option Bool
  deriving DecidableEq, Repr

/-- Extensions of the source regex `([A-Za-z0-9]+)\.(java|swift|kt|scala)$`. -/
def nativeExtensions : List String := ["java", "swift", "kt", "scala"]

/-- One alternative of the regex: the character list contains an
alphanumeric character immediately followed by a dot, the extension and the
end of the string. -/
def hasAlnumDotSuffix (ext : List Char) : List Char → Bool
  | [] => false
  | c :: rest => (c.isAlphanum && rest == ('.' :: ext)) || hasAlnumDotSuffix ext rest

/-- Embedding of `nativeFileRegex.test` from utils.ts: the unanchored
regex `([A-Za-z0-9]+)\.(java|swift|kt|scala)$` matches a path. -/
def nativeFileRegex (s : String) : Bool :=
  nativeExtensions.any (fun e => hasAlnumDotSuffix e.data s.data)

/-- The per-dependency scanning continuations of `getLocalDepenencies`
(utils.ts lines 440-467): for each declared dependency, if its folder
exists its file tree is listed (a rejected listing calls program.error,
aborting the process, modelled by `.error`) and the native flag is set by
testing every listed file against `nativeFileRegex`; a dependency whose
folder is missing is kept with no native flag. -/
def scanAll (fs : LocalFS) : List (String × String) → Except Unit (List LocalDep)
  | [] => .ok []
  | (k, v) :: rest =>
    if fs.depFolderExists k then
      match fs.listFiles k with
      | .error e => .error e
      | .ok files => (scanAll fs rest).map (fun l => ⟨k, v, some (files.any nativeFileRegex)⟩ :: l)
    else
      (scanAll fs rest).map (fun l => ⟨k, v, none⟩ :: l)

/-- Manifest existence and JSON.parse (utils.ts lines 403-416). -/
def parseStage (fs : LocalFS) : Except LocalErr JSValue :=
  if fs.packageJsonExists then
    match fs.packageJson with
    | none => .error .manifestMalformed
    | some pj => .ok pj
  else .error .manifestMissing

/-- Extraction and validation of the dependencies section (utils.ts lines
418-429): destructuring `packageJson` throws on `null` (modelled by
`.typeError`); a falsy `dependencies` value aborts with the
missing-section message; a declared value whose `typeof` is not "string"
aborts with the invalid-dependency message. -/
def depsStage (pj : JSValue) : Except LocalErr (List (String × String)) :=
  match jsGet pj "dependencies" with
  | none => .error .typeError
  | some deps =>
    if !(truthy deps) then .error .dependenciesSectionMissing
    else if (jsEntries deps).any (fun p => !(jsTypeof p.2 == "string")) then
      .error .dependencyValueInvalid
    else .ok ((jsEntries deps).map (fun p => (p.1, jsAsString p.2)))

/-- The scanning phase of `getLocalDepenencies` (utils.ts lines 436-473).
Every missing-folder message is logged in the synchronous part of the
per-dependency callbacks before any file-tree rejection can abort the
process, so the missing-folder messages are collected first and a scan
failure is appended after them; when no scan aborts, the join point at
line 470 aborts if any folder was missing (`anyInvalid`, equivalently an
entry without a native flag). -/
def scanPart (fs : LocalFS) (entries : List (String × String)) :
    List LocalErr × Option (List LocalDep) :=
  let missingLogs := entries.filterMap
    (fun p => if fs.depFolderExists p.1 then none else some LocalErr.dependencyFolderMissing)
  match scanAll fs entries with
  | .error _ => (missingLogs ++ [.scanFailed], none)
  | .ok l =>
    if !missingLogs.isEmpty || l.any (fun d => d.native.isNone) then (missingLogs, none)
    else (missingLogs, some l)

/-- Embedding of `getLocalDepenencies` (utils.ts lines 402-474). The first
component collects the error messages the run reports, the second is
`some` of the returned dependency list, or `none` when the run aborts. -/
def getLocalDepenencies (fs : LocalFS) : List LocalErr × Option (List LocalDep) :=
  match parseStage fs with
  | .error e => ([e], none)
  | .ok pj =>
    match depsStage pj with
    | .error e => ([e], none)
    | .ok entries =>
      if !fs.nodeModulesExists then ([.installedPackagesMissing], none)
      else scanPart fs entries

/-- Error messages reported by `getRemoteDepenencies` in utils.ts.
`parseFailed` is the caught exception path of lines 493-499 (the row's
`version` is null); `typeError` models the uncaught TypeError of calling
forEach on a non-array or destructuring a null entry. -/
inductive RemoteErr where
  | channelLookupFailed
  | parseFailed
  | nativeMetadataMissing
  | nativeMetadataMalformed
  | typeError
  deriving DecidableEq, Repr

/-- The row returned by the channels query: its `version` field (the
joined release record carrying `native_packages`). -/
structure RemoteRow where
  version : JSValue

/-- One iteration of the forEach validation loop of utils.ts lines 507-523:
an entry whose `typeof` is not "object", or whose destructured `name` or
`version` is falsy or not a string, aborts with the malformed message;
destructuring a `null` entry (which passes the `typeof` test, since
`typeof null` is "object") throws a TypeError. -/
def validEntryCheck (e : JSValue) : Except RemoteErr Unit :=
  if !(jsTypeof e == "object") then .error .nativeMetadataMalformed
  else
    match jsGet e "name", jsGet e "version" with
    | some nm, some ver =>
      if !(truthy nm) || !(jsTypeof nm == "string") then .error .nativeMetadataMalformed
      else if !(truthy ver) || !(jsTypeof ver == "string") then .error .nativeMetadataMalformed
      else .ok ()
    | _, _ => .error .typeError

/-- The forEach validation loop of utils.ts lines 507-523: the first
failing entry aborts the whole fetch. -/
def validateEntries : List JSValue → Except RemoteErr Unit
  | [] => .ok ()
  | e :: rest =>
    match validEntryCheck e with
    | .error err => .error err
    | .ok _ => validateEntries rest

/-- JavaScript `Map.set` on an association list: an existing key keeps its
position and gets the new value, a new key is appended. -/
def mapInsert (m : List (String × String)) (k v : String) : List (String × String) :=
  if m.any (fun p => p.1 == k) then m.map (fun p => if p.1 == k then (k, v) else p)
  else m ++ [(k, v)]

/-- JavaScript `new Map(list)`: later occurrences of a key overwrite
earlier ones, iteration order is first-insertion order. -/
def buildMap (l : List (String × String)) : List (String × String) :=
  l.foldl (fun m p => mapInsert m p.1 p.2) []

/-- JavaScript `Map.get`. -/
def mapGet (m : List (String × String)) (k : String) : Option String :=
  (m.find? (fun p => p.1 == k)).map Prod.snd

/-- Embedding of `getRemoteDepenencies` (utils.ts lines 476-529) given the
result of the channels query (`.error` = supabase returned an error). -/
def getRemoteDepenencies (q : Except Unit RemoteRow) : Except RemoteErr (List (String × String)) :=
  match q with
  | .error _ => .error .channelLookupFailed
  | .ok row =>
    match jsGet row.version "native_packages" with
    | none => .error .parseFailed
    | some np =>
      if !(truthy np) then .error .nativeMetadataMissing
      else
        match np with
        | .arr entries =>
          match validateEntries entries with
          | .error e => .error e
          | .ok _ => .ok (buildMap (entries.map
              (fun e => (jsAsString (jsField e "name"), jsAsString (jsField e "version")))))
        | _ => .error .typeError

/-- One element of `finalCompatibility`: `Matched` has both versions,
`LocalOnly` has `remoteVersion = none`, `RemoteOnly` has
`localVersion = none`. -/
structure CompatEntry where
  name : String
  localVersion : Option String
  remoteVersion : Option String
  deriving DecidableEq, Repr

/-- The merge step of `checkCompatibility` (utils.ts lines 548-570): local
dependencies whose `native` flag is truthy become Matched or LocalOnly
entries; remote entries whose name is not found in the full local
dependency list (line 567) become RemoteOnly entries. -/
def reconcile (deps : List LocalDep) (m : List (String × String)) : List CompatEntry :=
  ((deps.filter (fun a => a.native == some true)).map (fun l =>
    match mapGet m l.name with
    | some rv => { name := l.name, localVersion := some l.version, remoteVersion := some rv }
    | none => { name := l.name, localVersion := some l.version, remoteVersion := none }))
  ++ ((m.filter (fun p => (deps.find? (fun a => a.name == p.1)).isNone)).map
      (fun p => { name := p.1, localVersion := none, remoteVersion := some p.2 }))

/-- Tag distinguishing which side of `checkCompatibility` reported an
error message. -/
inductive CheckErr where
  | localFail (e : LocalErr)
  | remoteFail (e : RemoteErr)
  deriving DecidableEq, Repr

/-- Embedding of `checkCompatibility` (utils.ts lines 531-576): the local
side runs first; only when both sides succeed is the reconciled diff
computed and returned together with the raw local dependency list. -/
def checkCompatibility (fs : LocalFS) (q : Except Unit RemoteRow) :
    List CheckErr × Option (List CompatEntry × List LocalDep) :=
  match getLocalDepenencies fs with
  | (logs, none) => (logs.map .localFail, none)
  | (logs, some deps) =>
    match getRemoteDepenencies q with
    | .error e => (logs.map .localFail ++ [.remoteFail e], none)
    | .ok m => (logs.map .localFail, some (reconcile deps m, deps))

/-- A run of `getLocalDepenencies` fails with the message `e`: the message
is reported and the process aborts without returning a dependency list. -/
def localRunFails (fs : LocalFS) (e : LocalErr) : Prop :=
  e ∈ (getLocalDepenencies fs).1 ∧ (getLocalDepenencies fs).2 = none

/-! Spec-side definitions. The two definitions below follow the wording of
the specification (not the source) and are compared with the source-side
definitions in the claim theorems. -/

/-- Modelled from the spec wording of the native-file pattern: one or more
alphanumeric characters immediately followed by a dot and one of the
extensions java, swift, kt, scala at the end of the path. -/
def specNativeMatch (s : String) : Prop :=
  ∃ (p run : List Char) (ext : String), ext ∈ nativeExtensions ∧ run ≠ [] ∧
    (∀ c ∈ run, c.isAlphanum = true) ∧ s.data = p ++ run ++ '.' :: ext.data

/-- Modelled from the spec wording of a malformed remote entry: not an
object, or the name is missing, empty or not a string, or the version is
missing, empty or not a string. -/
def specInvalidEntry : JSValue → Bool
  | .obj fields =>
    (match fields.lookup "name" with
     | some (.str s) => s == ""
     | _ => true) ||
    (match fields.lookup "version" with
     | some (.str s) => s == ""
     | _ => true)
  | _ => true

/-! Helper lemmas. -/

theorem hasAlnumDotSuffix_iff (ext : List Char) (l : List Char) :
    hasAlnumDotSuffix ext l = true ↔
      ∃ p c, c.isAlphanum = true ∧ l = p ++ c :: '.' :: ext := by
  induction l with
  | nil =>
    simp [hasAlnumDotSuffix]
  | cons a rest ih =>
    simp only [hasAlnumDotSuffix, Bool.or_eq_true, Bool.and_eq_true, beq_iff_eq, ih]
    constructor
    · rintro (⟨ha, hrest⟩ | ⟨p, c, hc, hrest⟩)
      · exact ⟨[], a, ha, by simp [hrest]⟩
      · exact ⟨a :: p, c, hc, by simp [hrest]⟩
    · rintro ⟨p, c, hc, heq⟩
      cases p with
      | nil =>
        simp only [List.nil_append, List.cons.injEq] at heq
        exact Or.inl ⟨heq.1 ▸ hc, heq.2⟩
      | cons q ps =>
        simp only [List.cons_append, List.cons.injEq] at heq
        exact Or.inr ⟨ps, c, hc, heq.2⟩

theorem nativeFileRegex_iff_specNativeMatch (s : String) :
    nativeFileRegex s = true ↔ specNativeMatch s := by
  unfold nativeFileRegex specNativeMatch
  rw [List.any_eq_true]
  constructor
  · rintro ⟨e, he, hmatch⟩
    obtain ⟨p, c, hc, heq⟩ := (hasAlnumDotSuffix_iff e.data s.data).1 hmatch
    exact ⟨p, [c], e, he, by simp, by simp [hc], by simpa using heq⟩
  · rintro ⟨p, run, e, he, hne, hall, heq⟩
    refine ⟨e, he, (hasAlnumDotSuffix_iff e.data s.data).2 ?_⟩
    rcases List.eq_nil_or_concat run with hcon | ⟨rs, c, hcon⟩
    · exact absurd hcon hne
    · refine ⟨p ++ rs, c, hall c (by simp [hcon]), ?_⟩
      rw [heq, hcon]
      simp

theorem mem_of_nodup_map_name {deps : List LocalDep}
    (h : (deps.map LocalDep.name).Nodup) {a b : LocalDep}
    (ha : a ∈ deps) (hb : b ∈ deps) (hn : a.name = b.name) : a = b :=
  List.inj_on_of_nodup_map h ha hb hn

theorem reconcile_mem_name_iff (deps : List LocalDep) (m : List (String × String)) (n : String) :
    n ∈ (reconcile deps m).map CompatEntry.name ↔
      ((∃ d ∈ deps, d.name = n ∧ d.native = some true) ∨
       ((∃ v, (n, v) ∈ m) ∧ ∀ d ∈ deps, d.name ≠ n)) := by
  unfold reconcile
  rw [List.map_append]
  simp only [List.mem_append, List.mem_map, List.mem_filter]
  constructor
  · rintro (⟨e, ⟨⟨d, ⟨hd, hnat⟩, hde⟩, hen⟩⟩ | ⟨e, ⟨⟨p, ⟨hp, hfind⟩, hpe⟩, hen⟩⟩)
    · refine Or.inl ⟨d, hd, ?_, by simpa using hnat⟩
      subst hde
      revert hen
      cases mapGet m d.name <;> intro hen <;> simpa using hen
    · subst hpe
      simp only at hen
      subst hen
      refine Or.inr ⟨⟨p.2, hp⟩, ?_⟩
      intro d hd hdn
      rw [Option.isNone_iff_eq_none, List.find?_eq_none] at hfind
      exact absurd (by simpa using hdn) (by simpa using hfind d hd)
  · rintro (⟨d, hd, hdn, hnat⟩ | ⟨⟨v, hv⟩, hnone⟩)
    · refine Or.inl ?_
      cases hg : mapGet m d.name with
      | some rv =>
        exact ⟨⟨d.name, some d.version, some rv⟩,
          ⟨d, ⟨hd, by simp [hnat]⟩, by simp [hg]⟩, hdn⟩
      | none =>
        exact ⟨⟨d.name, some d.version, none⟩,
          ⟨d, ⟨hd, by simp [hnat]⟩, by simp [hg]⟩, hdn⟩
    · refine Or.inr ⟨⟨n, none, some v⟩, ⟨(n, v), ⟨hv, ?_⟩, rfl⟩, rfl⟩
      rw [Option.isNone_iff_eq_none, List.find?_eq_none]
      intro d hd
      simpa using hnone d hd

theorem reconcile_map_name (deps : List LocalDep) (m : List (String × String)) :
    (reconcile deps m).map CompatEntry.name =
      (deps.filter (fun a => a.native == some true)).map LocalDep.name
      ++ (m.filter (fun p => (deps.find? (fun a => a.name == p.1)).isNone)).map Prod.fst := by
  unfold reconcile
  rw [List.map_append, List.map_map, List.map_map]
  congr 1
  apply List.map_congr_left
  intro a _
  cases h : mapGet m a.name <;> simp [h]

theorem reconcile_names_nodup (deps : List LocalDep) (m : List (String × String))
    (hL : (deps.map LocalDep.name).Nodup) (hR : (m.map Prod.fst).Nodup) :
    ((reconcile deps m).map CompatEntry.name).Nodup := by
  rw [reconcile_map_name]
  rw [List.nodup_append]
  refine ⟨hL.sublist (List.Sublist.map _ (List.filter_sublist deps)),
    hR.sublist (List.Sublist.map _ (List.filter_sublist m)), ?_⟩
  intro n hn1 hn2
  rw [List.mem_map] at hn1 hn2
  obtain ⟨d, hd, hdn⟩ := hn1
  obtain ⟨p, hp, hpn⟩ := hn2
  rw [List.mem_filter] at hd hp
  rw [Option.isNone_iff_eq_none, List.find?_eq_none] at hp
  exact hp.2 d hd.1 (by simp [hdn, hpn])

theorem reconcile_no_entry_of_nonnative (deps : List LocalDep) (m : List (String × String))
    (d : LocalDep) (hnd : (deps.map LocalDep.name).Nodup) (hd : d ∈ deps)
    (hnat : d.native ≠ some true) : ∀ e ∈ reconcile deps m, e.name ≠ d.name := by
  intro e he hen
  have hmem : d.name ∈ (reconcile deps m).map CompatEntry.name :=
    List.mem_map.2 ⟨e, he, hen⟩
  rcases (reconcile_mem_name_iff deps m d.name).1 hmem with ⟨d2, hd2, hd2n, hd2nat⟩ | ⟨_, habs⟩
  · exact hnat (mem_of_nodup_map_name hnd hd2 hd hd2n ▸ hd2nat)
  · exact habs d hd rfl

theorem reconcile_matched_mem (deps : List LocalDep) (m : List (String × String))
    (d : LocalDep) (rv : String) (hd : d ∈ deps) (hnat : d.native = some true)
    (hg : mapGet m d.name = some rv) :
    ({ name := d.name, localVersion := some d.version, remoteVersion := some rv } :
      CompatEntry) ∈ reconcile deps m := by
  unfold reconcile
  rw [List.mem_append]
  refine Or.inl (List.mem_map.2 ⟨d, List.mem_filter.2 ⟨hd, by simp [hnat]⟩, by simp [hg]⟩)

theorem reconcile_localonly_mem (deps : List LocalDep) (m : List (String × String))
    (d : LocalDep) (hd : d ∈ deps) (hnat : d.native = some true)
    (hg : mapGet m d.name = none) :
    ({ name := d.name, localVersion := some d.version, remoteVersion := none } :
      CompatEntry) ∈ reconcile deps m := by
  unfold reconcile
  rw [List.mem_append]
  refine Or.inl (List.mem_map.2 ⟨d, List.mem_filter.2 ⟨hd, by simp [hnat]⟩, by simp [hg]⟩)

theorem reconcile_remoteonly_mem (deps : List LocalDep) (m : List (String × String))
    (n v : String) (hv : (n, v) ∈ m) (habs : ∀ d ∈ deps, d.name ≠ n) :
    ({ name := n, localVersion := none, remoteVersion := some v } :
      CompatEntry) ∈ reconcile deps m := by
  unfold reconcile
  rw [List.mem_append]
  refine Or.inr (List.mem_map.2 ⟨(n, v), List.mem_filter.2 ⟨hv, ?_⟩, rfl⟩)
  rw [Option.isNone_iff_eq_none, List.find?_eq_none]
  intro d hd
  simpa using habs d hd

theorem except_map_ok {ε α β : Type} {f : α → β} {x : Except ε α} {y : β}
    (h : x.map f = .ok y) : ∃ a, x = .ok a ∧ f a = y := by
  cases x with
  | error e => simp [Except.map] at h
  | ok a => exact ⟨a, rfl, by simpa [Except.map] using h⟩

theorem scanAll_ok_mem (fs : LocalFS) (entries : List (String × String))
    (l : List LocalDep) (h : scanAll fs entries = .ok l) :
    ∀ d ∈ l, (fs.depFolderExists d.name = false ∧ d.native = none) ∨
      (∃ files, fs.listFiles d.name = .ok files ∧
        d.native = some (files.any nativeFileRegex)) := by
  induction entries generalizing l with
  | nil =>
    simp only [scanAll] at h
    cases h
    simp
  | cons p rest ih =>
    obtain ⟨k, v⟩ := p
    simp only [scanAll] at h
    by_cases hfold : fs.depFolderExists k
    · rw [if_pos hfold] at h
      cases hlist : fs.listFiles k with
      | error e => rw [hlist] at h; cases h
      | ok files =>
        rw [hlist] at h
        obtain ⟨l2, hl2, hl2e⟩ := except_map_ok h
        intro d hd
        rw [← hl2e] at hd
        rcases List.mem_cons.1 hd with rfl | hd2
        · exact Or.inr ⟨files, hlist, rfl⟩
        · exact ih l2 hl2 d hd2
    · rw [if_neg hfold] at h
      obtain ⟨l2, hl2, hl2e⟩ := except_map_ok h
      intro d hd
      rw [← hl2e] at hd
      rcases List.mem_cons.1 hd with rfl | hd2
      · exact Or.inl ⟨by simpa using hfold, rfl⟩
      · exact ih l2 hl2 d hd2

theorem scanAll_ok_shape (fs : LocalFS) (entries : List (String × String))
    (l : List LocalDep) (h : scanAll fs entries = .ok l) :
    l.map (fun d => (d.name, d.version)) = entries := by
  induction entries generalizing l with
  | nil =>
    simp only [scanAll] at h
    cases h
    rfl
  | cons p rest ih =>
    obtain ⟨k, v⟩ := p
    simp only [scanAll] at h
    by_cases hfold : fs.depFolderExists k
    · rw [if_pos hfold] at h
      cases hlist : fs.listFiles k with
      | error e => rw [hlist] at h; cases h
      | ok files =>
        rw [hlist] at h
        obtain ⟨l2, hl2, hl2e⟩ := except_map_ok h
        rw [← hl2e]
        simpa using ih l2 hl2
    · rw [if_neg hfold] at h
      obtain ⟨l2, hl2, hl2e⟩ := except_map_ok h
      rw [← hl2e]
      simpa using ih l2 hl2

theorem scanAll_error_of_listfail (fs : LocalFS) (entries : List (String × String))
    (h : ∃ p ∈ entries, fs.depFolderExists p.1 = true ∧ fs.listFiles p.1 = .error ()) :
    scanAll fs entries = .error () := by
  induction entries with
  | nil => simp at h
  | cons q rest ih =>
    obtain ⟨k, v⟩ := q
    obtain ⟨p, hp, hpf, hpl⟩ := h
    simp only [scanAll]
    rcases List.mem_cons.1 hp with rfl | hp2
    · simp only at hpf hpl
      rw [if_pos hpf, hpl]
    · by_cases hfold : fs.depFolderExists k
      · rw [if_pos hfold]
        cases hlist : fs.listFiles k with
        | error e => rfl
        | ok files =>
          rw [ih ⟨p, hp2, hpf, hpl⟩]
          rfl
      · rw [if_neg hfold, ih ⟨p, hp2, hpf, hpl⟩]
        rfl

theorem parseStage_ok (fs : LocalFS) (pj : JSValue) (h : parseStage fs = .ok pj) :
    fs.packageJsonExists = true ∧ fs.packageJson = some pj := by
  unfold parseStage at h
  by_cases he : fs.packageJsonExists
  · rw [if_pos he] at h
    cases hp : fs.packageJson with
    | none => simp only [hp] at h; cases h
    | some v =>
      simp only [hp, Except.ok.injEq] at h
      subst h
      exact ⟨he, rfl⟩
  · rw [if_neg he] at h
    cases h

theorem parseStage_eq_ok (fs : LocalFS) (pj : JSValue) (h1 : fs.packageJsonExists = true)
    (h2 : fs.packageJson = some pj) : parseStage fs = .ok pj := by
  unfold parseStage
  rw [h1, h2]
  rfl

theorem depsStage_ok (pj : JSValue) (entries : List (String × String))
    (h : depsStage pj = .ok entries) :
    ∃ dval, jsGet pj "dependencies" = some dval ∧ truthy dval = true ∧
      (∀ p ∈ jsEntries dval, jsTypeof p.2 = "string") ∧
      entries = (jsEntries dval).map (fun p => (p.1, jsAsString p.2)) := by
  unfold depsStage at h
  cases hg : jsGet pj "dependencies" with
  | none => simp only [hg] at h; cases h
  | some dval =>
    simp only [hg] at h
    by_cases ht : truthy dval
    · simp only [ht, Bool.not_true, Bool.false_eq_true, if_false] at h
      by_cases hv : (jsEntries dval).any (fun p => !(jsTypeof p.2 == "string")) = true
      · rw [if_pos hv] at h; cases h
      · rw [if_neg hv] at h
        cases h
        refine ⟨dval, rfl, ht, ?_, rfl⟩
        intro p hp
        have hne := fun hc => hv ((List.any_eq_true).2 ⟨p, hp, hc⟩)
        simpa using hne
    · simp only [Bool.not_eq_true] at ht
      simp only [ht, Bool.not_false, if_true] at h
      cases h

theorem depsStage_eq_ok (pj dval : JSValue) (h1 : jsGet pj "dependencies" = some dval)
    (h2 : truthy dval = true) (h3 : ∀ p ∈ jsEntries dval, jsTypeof p.2 = "string") :
    depsStage pj = .ok ((jsEntries dval).map (fun p => (p.1, jsAsString p.2))) := by
  unfold depsStage
  have hv : (jsEntries dval).any (fun p => !(jsTypeof p.2 == "string")) = false := by
    rw [List.any_eq_false]
    intro p hp
    simp [h3 p hp]
  simp only [h1, h2, hv, Bool.not_true, Bool.false_eq_true, if_false]

theorem getLocal_eq_scanPart (fs : LocalFS) (pj dval : JSValue)
    (h1 : fs.packageJsonExists = true) (h2 : fs.packageJson = some pj)
    (h3 : jsGet pj "dependencies" = some dval) (h4 : truthy dval = true)
    (h5 : ∀ p ∈ jsEntries dval, jsTypeof p.2 = "string")
    (h6 : fs.nodeModulesExists = true) :
    getLocalDepenencies fs =
      scanPart fs ((jsEntries dval).map (fun p => (p.1, jsAsString p.2))) := by
  unfold getLocalDepenencies
  simp only [parseStage_eq_ok fs pj h1 h2, depsStage_eq_ok pj dval h3 h4 h5, h6,
    Bool.not_true, Bool.false_eq_true, if_false]

theorem scanPart_missing_fails (fs : LocalFS) (entries : List (String × String))
    (h : ∃ p ∈ entries, fs.depFolderExists p.1 = false) :
    LocalErr.dependencyFolderMissing ∈ (scanPart fs entries).1 ∧
      (scanPart fs entries).2 = none := by
  obtain ⟨p, hp, hpf⟩ := h
  unfold scanPart
  have hmem : LocalErr.dependencyFolderMissing ∈ entries.filterMap
      (fun p => if fs.depFolderExists p.1 then none
        else some LocalErr.dependencyFolderMissing) := by
    rw [List.mem_filterMap]
    exact ⟨p, hp, by rw [hpf]; rfl⟩
  cases hs : scanAll fs entries with
  | error e =>
    exact ⟨List.mem_append.2 (Or.inl hmem), rfl⟩
  | ok l =>
    have hne : (entries.filterMap
        (fun p => if fs.depFolderExists p.1 then none
          else some LocalErr.dependencyFolderMissing)).isEmpty = false := by
      cases hE : entries.filterMap
          (fun p => if fs.depFolderExists p.1 then none
            else some LocalErr.dependencyFolderMissing) with
      | nil => rw [hE] at hmem; cases hmem
      | cons a b => rfl
    simp only [hne, Bool.not_false, Bool.true_or, if_true]
    exact ⟨hmem, trivial⟩

theorem scanPart_scanfail (fs : LocalFS) (entries : List (String × String))
    (h : ∃ p ∈ entries, fs.depFolderExists p.1 = true ∧ fs.listFiles p.1 = .error ()) :
    LocalErr.scanFailed ∈ (scanPart fs entries).1 ∧ (scanPart fs entries).2 = none := by
  unfold scanPart
  rw [scanAll_error_of_listfail fs entries h]
  exact ⟨List.mem_append.2 (Or.inr (by simp)), rfl⟩

theorem scanPart_ok (fs : LocalFS) (entries : List (String × String)) (l : List LocalDep)
    (h : (scanPart fs entries).2 = some l) :
    scanAll fs entries = .ok l ∧ ∀ d ∈ l, d.native ≠ none := by
  unfold scanPart at h
  cases hs : scanAll fs entries with
  | error e => simp only [hs] at h; cases h
  | ok l2 =>
    simp only [hs] at h
    by_cases hc : (!(entries.filterMap (fun p => if fs.depFolderExists p.1 then none
        else some LocalErr.dependencyFolderMissing)).isEmpty
        || l2.any (fun d => d.native.isNone)) = true
    · simp only [hc, if_true] at h
      cases h
    · simp only [hc, if_false] at h
      cases h
      refine ⟨rfl, ?_⟩
      intro d hd hdn
      rw [Bool.or_eq_true, not_or] at hc
      exact hc.2 ((List.any_eq_true).2 ⟨d, hd, by simp [hdn]⟩)

theorem getLocal_ok_inversion (fs : LocalFS) (l : List LocalDep)
    (h : (getLocalDepenencies fs).2 = some l) :
    ∃ pj dval, fs.packageJsonExists = true ∧ fs.packageJson = some pj ∧
      jsGet pj "dependencies" = some dval ∧ truthy dval = true ∧
      (∀ p ∈ jsEntries dval, jsTypeof p.2 = "string") ∧ fs.nodeModulesExists = true ∧
      scanAll fs ((jsEntries dval).map (fun p => (p.1, jsAsString p.2))) = .ok l ∧
      (∀ d ∈ l, d.native ≠ none) := by
  unfold getLocalDepenencies at h
  cases hp : parseStage fs with
  | error e => simp only [hp] at h; cases h
  | ok pj =>
    simp only [hp] at h
    cases hd : depsStage pj with
    | error e => simp only [hd] at h; cases h
    | ok entries =>
      simp only [hd] at h
      by_cases hn : fs.nodeModulesExists
      · simp only [hn, Bool.not_true, Bool.false_eq_true, if_false] at h
        obtain ⟨he, hpj⟩ := parseStage_ok fs pj hp
        obtain ⟨dval, hg, ht, hstr, hent⟩ := depsStage_ok pj entries hd
        obtain ⟨hscan, hnone⟩ := scanPart_ok fs entries l h
        subst hent
        exact ⟨pj, dval, he, hpj, hg, ht, hstr, by simpa using hn, hscan, hnone⟩
      · simp only [Bool.not_eq_true] at hn
        simp only [hn, Bool.not_false, if_true] at h
        cases h

theorem checkCompatibility_ok (fs : LocalFS) (q : Except Unit RemoteRow)
    (fc : List CompatEntry) (deps : List LocalDep)
    (h : (checkCompatibility fs q).2 = some (fc, deps)) :
    (getLocalDepenencies fs).2 = some deps ∧
      ∃ m, getRemoteDepenencies q = .ok m ∧ fc = reconcile deps m := by
  unfold checkCompatibility at h
  cases hl : getLocalDepenencies fs with
  | mk logs o =>
    cases o with
    | none => rw [hl] at h; simp at h
    | some deps0 =>
      rw [hl] at h
      cases hr : getRemoteDepenencies q with
      | error e => simp only [hr] at h; simp at h
      | ok m =>
        simp only [hr] at h
        simp only [Option.some.injEq, Prod.mk.injEq] at h
        obtain ⟨h1, h2⟩ := h
        subst h2
        exact ⟨rfl, m, rfl, h1.symm⟩

theorem checkCompatibility_none_of_local (fs : LocalFS) (q : Except Unit RemoteRow)
    (h : (getLocalDepenencies fs).2 = none) : (checkCompatibility fs q).2 = none := by
  unfold checkCompatibility
  cases hl : getLocalDepenencies fs with
  | mk logs o =>
    cases o with
    | none => rfl
    | some deps0 =>
      rw [hl] at h
      simp at h

theorem checkCompatibility_none_of_remote (fs : LocalFS) (q : Except Unit RemoteRow)
    (e : RemoteErr) (h : getRemoteDepenencies q = .error e) :
    (checkCompatibility fs q).2 = none := by
  unfold checkCompatibility
  cases hl : getLocalDepenencies fs with
  | mk logs o =>
    cases o with
    | none => rfl
    | some deps0 => rw [h]

/-- The query row used to feed `getRemoteDepenencies` a fetched
native-package list. -/
def remoteRowOf (entries : List JSValue) : Except Unit RemoteRow :=
  .ok ⟨.obj [("native_packages", .arr entries)]⟩

theorem getRemote_remoteRowOf (entries : List JSValue) :
    getRemoteDepenencies (remoteRowOf entries) =
      match validateEntries entries with
      | .error e => .error e
      | .ok _ => .ok (buildMap (entries.map
          (fun e => (jsAsString (jsField e "name"), jsAsString (jsField e "version"))))) := rfl

theorem validEntryCheck_null : validEntryCheck JSValue.null = .error .typeError := rfl

theorem validEntryCheck_invalid (e : JSValue) (hn : e ≠ JSValue.null)
    (hinv : specInvalidEntry e = true) :
    validEntryCheck e = .error .nativeMetadataMalformed := by
  cases e with
  | null => exact absurd rfl hn
  | undefined => rfl
  | bool b => rfl
  | num n => rfl
  | str s => rfl
  | arr xs => rfl
  | obj fields =>
    simp only [specInvalidEntry, Bool.or_eq_true] at hinv
    cases hname : fields.lookup "name" with
    | none => simp [validEntryCheck, jsGet, jsTypeof, truthy, hname]
    | some nv =>
      rw [hname] at hinv
      cases nv with
      | str s =>
        by_cases hs : s = ""
        · subst hs
          simp [validEntryCheck, jsGet, jsTypeof, truthy, hname]
        · replace hinv : (match fields.lookup "version" with
              | some (JSValue.str s) => s == ""
              | _ => true) = true := by
            rcases hinv with hbad | hver
            · simp only [beq_iff_eq] at hbad
              exact absurd hbad hs
            · exact hver
          cases hver : fields.lookup "version" with
          | none => simp [validEntryCheck, jsGet, jsTypeof, truthy, hname, hver, hs]
          | some vv =>
            rw [hver] at hinv
            cases vv with
            | str t =>
              simp only [beq_iff_eq] at hinv
              subst hinv
              simp [validEntryCheck, jsGet, jsTypeof, truthy, hname, hver, hs]
            | null => simp [validEntryCheck, jsGet, jsTypeof, truthy, hname, hver, hs]
            | undefined => simp [validEntryCheck, jsGet, jsTypeof, truthy, hname, hver, hs]
            | bool b => cases b <;> simp [validEntryCheck, jsGet, jsTypeof, truthy, hname, hver, hs]
            | num n => simp [validEntryCheck, jsGet, jsTypeof, truthy, hname, hver, hs]
            | arr ys => simp [validEntryCheck, jsGet, jsTypeof, truthy, hname, hver, hs]
            | obj gs => simp [validEntryCheck, jsGet, jsTypeof, truthy, hname, hver, hs]
      | null => simp [validEntryCheck, jsGet, jsTypeof, truthy, hname]
      | undefined => simp [validEntryCheck, jsGet, jsTypeof, truthy, hname]
      | bool b => cases b <;> simp [validEntryCheck, jsGet, jsTypeof, truthy, hname]
      | num n =>
        by_cases hz : n = 0
        · subst hz; simp [validEntryCheck, jsGet, jsTypeof, truthy, hname]
        · simp [validEntryCheck, jsGet, jsTypeof, truthy, hname, hz]
      | arr ys => simp [validEntryCheck, jsGet, jsTypeof, truthy, hname]
      | obj gs => simp [validEntryCheck, jsGet, jsTypeof, truthy, hname]

theorem validEntryCheck_valid (e : JSValue) (hval : specInvalidEntry e = false) :
    validEntryCheck e = .ok () := by
  cases e with
  | obj fields =>
    simp only [specInvalidEntry, Bool.or_eq_false_iff] at hval
    obtain ⟨hname, hver⟩ := hval
    cases hn : fields.lookup "name" with
    | none => rw [hn] at hname; cases hname
    | some nv =>
      rw [hn] at hname
      cases nv <;> try cases hname
      rename_i s
      simp only [beq_eq_false_iff_ne, ne_eq] at hname
      cases hv : fields.lookup "version" with
      | none => rw [hv] at hver; cases hver
      | some vv =>
        rw [hv] at hver
        cases vv <;> try cases hver
        rename_i t
        simp only [beq_eq_false_iff_ne, ne_eq] at hver
        simp [validEntryCheck, jsGet, jsTypeof, truthy, hn, hv, hname, hver]
  | null => cases hval
  | undefined => cases hval
  | bool b => cases hval
  | num n => cases hval
  | str s => cases hval
  | arr xs => cases hval

theorem validateEntries_any_invalid (entries : List JSValue)
    (h : entries.any specInvalidEntry = true) :
    validateEntries entries = .error .nativeMetadataMalformed ∨
      (validateEntries entries = .error .typeError ∧ JSValue.null ∈ entries) := by
  induction entries with
  | nil => simp at h
  | cons e rest ih =>
    have hcons : validateEntries (e :: rest) =
        match validEntryCheck e with
        | .error err => .error err
        | .ok _ => validateEntries rest := rfl
    by_cases hnull : e = JSValue.null
    · subst hnull
      rw [hcons, validEntryCheck_null]
      exact Or.inr ⟨rfl, List.mem_cons_self _ _⟩
    · by_cases hinv : specInvalidEntry e = true
      · rw [hcons, validEntryCheck_invalid e hnull hinv]
        exact Or.inl rfl
      · rw [Bool.not_eq_true] at hinv
        rw [List.any_cons, Bool.or_eq_true, hinv] at h
        rw [hcons, validEntryCheck_valid e hinv]
        rcases ih (by simpa using h) with hmal | ⟨hty, hmem⟩
        · exact Or.inl hmal
        · exact Or.inr ⟨hty, List.mem_cons_of_mem e hmem⟩

/-! Claim theorems. -/

/-- C1 (amended): for every local dependency list L (with native flags,
duplicate-free names as produced by Object.entries) and every remote
native-package map R (duplicate-free keys), the set of names appearing in
the reconciled entries equals the union of the names of the native entries
of L and the names of R that do not occur in the FULL list L (a remote
name shadowed by a non-native local dependency is dropped, utils.ts line
567), and each such name appears in exactly one entry. -/
theorem C1_reconciled_names_totality (deps : List LocalDep) (m : List (String × String))
    (hL : (deps.map LocalDep.name).Nodup) (hR : (m.map Prod.fst).Nodup) :
    (∀ n, n ∈ (reconcile deps m).map CompatEntry.name ↔
      ((∃ d ∈ deps, d.name = n ∧ d.native = some true) ∨
       (n ∈ m.map Prod.fst ∧ ∀ d ∈ deps, d.name ≠ n))) ∧
    ((reconcile deps m).map CompatEntry.name).Nodup := by
  refine ⟨?_, reconcile_names_nodup deps m hL hR⟩
  intro n
  rw [reconcile_mem_name_iff]
  constructor
  · rintro (hloc | ⟨⟨v, hv⟩, habs⟩)
    · exact Or.inl hloc
    · exact Or.inr ⟨List.mem_map.2 ⟨(n, v), hv, rfl⟩, habs⟩
  · rintro (hloc | ⟨hmem, habs⟩)
    · exact Or.inl hloc
    · obtain ⟨p, hp, hpn⟩ := List.mem_map.1 hmem
      exact Or.inr ⟨⟨p.2, by rw [← hpn]; exact hp⟩, habs⟩

/-- C1 witness: instantiation at a one-element native local list and a
disjoint one-element remote map. -/
theorem C1_reconciled_names_totality_witness :
    (∀ n, n ∈ (reconcile [⟨"A", "1.0.0", some true⟩] [("D", "3.0.0")]).map
        CompatEntry.name ↔
      ((∃ d ∈ [(⟨"A", "1.0.0", some true⟩ : LocalDep)], d.name = n ∧ d.native = some true) ∨
       (n ∈ [("D", "3.0.0")].map Prod.fst ∧
        ∀ d ∈ [(⟨"A", "1.0.0", some true⟩ : LocalDep)], d.name ≠ n))) ∧
    ((reconcile [⟨"A", "1.0.0", some true⟩] [("D", "3.0.0")]).map CompatEntry.name).Nodup :=
  C1_reconciled_names_totality [⟨"A", "1.0.0", some true⟩] [("D", "3.0.0")]
    (by decide) (by decide)

/-- C1 counterexample: with L = [C non-native, "1.0.0"] and
R = [("C", "1.1.0")], the claimed equality of the output name-set with
names(native L) ∪ names(R) fails at the name "C": "C" is in the union but
the reconciled output is empty. -/
theorem C1_counterexample :
    ¬ ("C" ∈ (reconcile [⟨"C", "1.0.0", some false⟩] [("C", "1.1.0")]).map
        CompatEntry.name ↔
      ((∃ d ∈ [(⟨"C", "1.0.0", some false⟩ : LocalDep)], d.name = "C" ∧
          d.native = some true) ∨
       "C" ∈ [("C", "1.1.0")].map Prod.fst)) := by decide

/-- C2 (amended): every local dependency flagged native yields a Matched
entry carrying both version strings when its name is in the remote map and
a LocalOnly entry when it is not; every remote entry whose name is absent
from the FULL local dependency list (not merely from the native subset)
yields a RemoteOnly entry; and on the spec worked example the output is
exactly Matched(A), LocalOnly(B), RemoteOnly(D). -/
theorem C2_classification (deps : List LocalDep) (m : List (String × String)) :
    (∀ d ∈ deps, d.native = some true →
      (∀ rv, mapGet m d.name = some rv →
        ({ name := d.name, localVersion := some d.version, remoteVersion := some rv } :
          CompatEntry) ∈ reconcile deps m) ∧
      (mapGet m d.name = none →
        ({ name := d.name, localVersion := some d.version, remoteVersion := none } :
          CompatEntry) ∈ reconcile deps m)) ∧
    (∀ p ∈ m, (∀ d ∈ deps, d.name ≠ p.1) →
      ({ name := p.1, localVersion := none, remoteVersion := some p.2 } :
        CompatEntry) ∈ reconcile deps m) ∧
    (reconcile
      [⟨"A", "1.0.0", some true⟩, ⟨"B", "2.0.0", some true⟩, ⟨"C", "1.0.0", some false⟩]
      [("A", "1.0.0"), ("D", "3.0.0")] =
      [⟨"A", some "1.0.0", some "1.0.0"⟩, ⟨"B", some "2.0.0", none⟩,
       ⟨"D", none, some "3.0.0"⟩]) := by
  refine ⟨?_, ?_, by decide⟩
  · intro d hd hnat
    exact ⟨fun rv hg => reconcile_matched_mem deps m d rv hd hnat hg,
      fun hg => reconcile_localonly_mem deps m d hd hnat hg⟩
  · intro p hp habs
    exact reconcile_remoteonly_mem deps m p.1 p.2 hp habs

/-- C2 witness: a native local dependency matched against a remote entry
of the same name. -/
theorem C2_classification_witness :
    ({ name := "A", localVersion := some "1.0.0", remoteVersion := some "1.0.0" } :
      CompatEntry) ∈ reconcile [⟨"A", "1.0.0", some true⟩] [("A", "1.0.0")] :=
  (((C2_classification [⟨"A", "1.0.0", some true⟩] [("A", "1.0.0")]).1
    ⟨"A", "1.0.0", some true⟩ (by decide) rfl).1) "1.0.0" rfl

/-- C2 counterexample: "C" is absent from the local NATIVE set (the only
local dependency named "C" is non-native), the remote map contains
("C", "4.0.0"), yet no RemoteOnly entry for "C" is emitted, because the
remote-only pass of utils.ts line 567 tests membership in the full local
list. -/
theorem C2_counterexample :
    (∀ d ∈ [(⟨"C", "2.0.0", some false⟩ : LocalDep)],
      ¬(d.native = some true ∧ d.name = "C")) ∧
    ({ name := "C", localVersion := none, remoteVersion := some "4.0.0" } :
      CompatEntry) ∉ reconcile [⟨"C", "2.0.0", some false⟩] [("C", "4.0.0")] := by decide

/-- C3: when the remote map contains a name equal to the name of a local
dependency whose native flag is false, checkCompatibility returns a
finalCompatibility collection containing no entry at all for that name. -/
theorem C3_shadowed_remote_dropped (fs : LocalFS) (q : Except Unit RemoteRow)
    (deps : List LocalDep) (m : List (String × String)) (d : LocalDep) (v : String)
    (hl : (getLocalDepenencies fs).2 = some deps) (hr : getRemoteDepenencies q = .ok m)
    (hnd : (deps.map LocalDep.name).Nodup) (hd : d ∈ deps)
    (hflag : d.native = some false) (hrem : mapGet m d.name = some v) :
    (checkCompatibility fs q).2 = some (reconcile deps m, deps) ∧
      ∀ e ∈ reconcile deps m, e.name ≠ d.name := by
  constructor
  · unfold checkCompatibility
    cases hL : getLocalDepenencies fs with
    | mk logs o =>
      rw [hL] at hl
      cases o with
      | none => simp at hl
      | some deps0 =>
        simp only [Option.some.injEq] at hl
        subst hl
        rw [hr]
  · exact reconcile_no_entry_of_nonnative deps m d hnd hd (by simp [hflag])

/-- Filesystem for the C3 witness: one declared dependency "C" whose
installed tree holds only a non-native file. -/
def fsC3 : LocalFS :=
  ⟨true, some (.obj [("dependencies", .obj [("C", .str "1.0.0")])]), true,
    fun _ => true, fun _ => .ok ["index.js"]⟩

/-- Remote row for the C3 witness: the remote manifest also records "C". -/
def qC3 : Except Unit RemoteRow :=
  remoteRowOf [.obj [("name", .str "C"), ("version", .str "2.0.0")]]

/-- C3 witness: the shadowed remote entry "C" is dropped end to end. -/
theorem C3_shadowed_remote_dropped_witness :
    (checkCompatibility fsC3 qC3).2 =
      some (reconcile [⟨"C", "1.0.0", some false⟩] [("C", "2.0.0")],
        [⟨"C", "1.0.0", some false⟩]) ∧
      ∀ e ∈ reconcile [⟨"C", "1.0.0", some false⟩] [("C", "2.0.0")],
        e.name ≠ (⟨"C", "1.0.0", some false⟩ : LocalDep).name :=
  C3_shadowed_remote_dropped fsC3 qC3 [⟨"C", "1.0.0", some false⟩] [("C", "2.0.0")]
    ⟨"C", "1.0.0", some false⟩ "2.0.0" rfl rfl (by decide) (by decide) rfl rfl

/-- C5: a declared local dependency whose native flag is false never
appears (by name) in any entry of the finalCompatibility collection
returned by checkCompatibility. -/
theorem C5_nonnative_excluded (fs : LocalFS) (q : Except Unit RemoteRow)
    (fc : List CompatEntry) (deps : List LocalDep) (d : LocalDep)
    (h : (checkCompatibility fs q).2 = some (fc, deps))
    (hnd : (deps.map LocalDep.name).Nodup) (hd : d ∈ deps)
    (hflag : d.native = some false) :
    ∀ e ∈ fc, e.name ≠ d.name := by
  obtain ⟨hl, m, hr, hfc⟩ := checkCompatibility_ok fs q fc deps h
  subst hfc
  exact reconcile_no_entry_of_nonnative deps m d hnd hd (by simp [hflag])

/-- Filesystem for the C5 witness: a non-native dependency "C" plus a
remote manifest recording only "D". -/
def fsC5 : LocalFS :=
  ⟨true, some (.obj [("dependencies", .obj [("C", .str "1.0.0")])]), true,
    fun _ => true, fun _ => .ok ["index.js"]⟩

/-- Remote row for the C5 witness. -/
def qC5 : Except Unit RemoteRow :=
  remoteRowOf [.obj [("name", .str "D"), ("version", .str "3.0.0")]]

/-- C5 witness: the one entry of the returned collection is not named
"C", the non-native local dependency. -/
theorem C5_nonnative_excluded_witness :
    ({ name := "D", localVersion := none, remoteVersion := some "3.0.0" } :
      CompatEntry).name ≠ (⟨"C", "1.0.0", some false⟩ : LocalDep).name :=
  C5_nonnative_excluded fsC5 qC5
    [{ name := "D", localVersion := none, remoteVersion := some "3.0.0" }]
    [⟨"C", "1.0.0", some false⟩] ⟨"C", "1.0.0", some false⟩
    rfl (by decide) (by decide) rfl
    { name := "D", localVersion := none, remoteVersion := some "3.0.0" }
    (List.mem_singleton.2 rfl)

/-- C4 (amended): a fetched remote native-package list containing at least
one invalid entry (not an object, or name missing/empty/not a string, or
version missing/empty/not a string) makes getRemoteDepenencies fail and
return zero entries: with the NativeMetadataMalformed error, except that a
null entry reached by the loop aborts with an uncaught TypeError instead
(JavaScript `typeof null` is "object", so a null entry passes the object
check and crashes on destructuring). Either way no partial map of the
valid entries is ever returned. -/
theorem C4_all_or_nothing (entries : List JSValue)
    (h : entries.any specInvalidEntry = true) :
    getRemoteDepenencies (remoteRowOf entries) = .error .nativeMetadataMalformed ∨
      (getRemoteDepenencies (remoteRowOf entries) = .error .typeError ∧
        JSValue.null ∈ entries) := by
  rw [getRemote_remoteRowOf]
  rcases validateEntries_any_invalid entries h with hmal | ⟨hty, hmem⟩
  · rw [hmal]
    exact Or.inl rfl
  · rw [hty]
    exact Or.inr ⟨rfl, hmem⟩

/-- C4 witness: a single numeric entry aborts the fetch with the
malformed-metadata error. -/
theorem C4_all_or_nothing_witness :
    getRemoteDepenencies (remoteRowOf [JSValue.num 5]) =
        .error .nativeMetadataMalformed ∨
      (getRemoteDepenencies (remoteRowOf [JSValue.num 5]) = .error .typeError ∧
        JSValue.null ∈ [JSValue.num 5]) :=
  C4_all_or_nothing [JSValue.num 5] rfl

/-- C4 counterexample: a null entry is invalid in the sense of the claim
(its name is missing; it is not an object), yet the run does not fail with
the NativeMetadataMalformed error: it crashes with an uncaught TypeError
when the forEach body destructures the null entry (utils.ts line 513). -/
theorem C4_counterexample :
    specInvalidEntry JSValue.null = true ∧
      getRemoteDepenencies (remoteRowOf [JSValue.null]) = .error .typeError ∧
      RemoteErr.typeError ≠ RemoteErr.nativeMetadataMalformed :=
  ⟨rfl, rfl, by decide⟩

/-- C6: in a successful run of getLocalDepenencies, a declared dependency
is flagged native if and only if at least one file path enumerated under
its installed directory matches the pattern of one or more alphanumeric
characters immediately followed by a dot and one of the extensions java,
swift, kt, scala at the end of the path; with no such file it is flagged
non-native. -/
theorem C6_native_classification (fs : LocalFS) (deps : List LocalDep) (d : LocalDep)
    (h : (getLocalDepenencies fs).2 = some deps) (hd : d ∈ deps) :
    ∃ files, fs.listFiles d.name = .ok files ∧
      (d.native = some true ↔ ∃ f ∈ files, specNativeMatch f) ∧
      (d.native = some false ↔ ∀ f ∈ files, ¬ specNativeMatch f) := by
  obtain ⟨pj, dval, _, _, _, _, _, _, hscan, hnone⟩ := getLocal_ok_inversion fs deps h
  rcases scanAll_ok_mem fs _ deps hscan d hd with ⟨_, hnone2⟩ | ⟨files, hfiles, hnat⟩
  · exact absurd hnone2 (hnone d hd)
  · refine ⟨files, hfiles, ?_, ?_⟩
    · rw [hnat]
      simp only [Option.some.injEq]
      rw [List.any_eq_true]
      constructor
      · rintro ⟨f, hf, hm⟩
        exact ⟨f, hf, (nativeFileRegex_iff_specNativeMatch f).1 hm⟩
      · rintro ⟨f, hf, hm⟩
        exact ⟨f, hf, (nativeFileRegex_iff_specNativeMatch f).2 hm⟩
    · rw [hnat]
      simp only [Option.some.injEq]
      rw [← Bool.not_eq_true, List.any_eq_true]
      push_neg
      constructor
      · intro hall f hf hm
        exact hall f hf ((nativeFileRegex_iff_specNativeMatch f).2 hm)
      · intro hall f hf hm
        exact hall f hf ((nativeFileRegex_iff_specNativeMatch f).1 hm)

/-- Filesystem for the C6 witness: one dependency "A" whose tree holds a
Kotlin source file. -/
def fsC6 : LocalFS :=
  ⟨true, some (.obj [("dependencies", .obj [("A", .str "1.0.0")])]), true,
    fun _ => true, fun _ => .ok ["src/Main.kt"]⟩

/-- C6 witness: the dependency of fsC6 is flagged native and its flag is
characterised by the spec pattern. -/
theorem C6_native_classification_witness :
    ∃ files, fsC6.listFiles "A" = .ok files ∧
      ((some true : Option Bool) = some true ↔ ∃ f ∈ files, specNativeMatch f) ∧
      ((some true : Option Bool) = some false ↔ ∀ f ∈ files, ¬ specNativeMatch f) :=
  C6_native_classification fsC6 [⟨"A", "1.0.0", some true⟩] ⟨"A", "1.0.0", some true⟩
    rfl (by decide)

theorem getLocal_parse_error (fs : LocalFS) (e : LocalErr)
    (hp : parseStage fs = .error e) : getLocalDepenencies fs = ([e], none) := by
  unfold getLocalDepenencies
  rw [hp]

theorem getLocal_deps_error (fs : LocalFS) (pj : JSValue) (e : LocalErr)
    (hp : parseStage fs = .ok pj) (hd : depsStage pj = .error e) :
    getLocalDepenencies fs = ([e], none) := by
  unfold getLocalDepenencies
  simp only [hp, hd]

theorem getLocal_nomodules (fs : LocalFS) (pj : JSValue) (entries : List (String × String))
    (hp : parseStage fs = .ok pj) (hd : depsStage pj = .ok entries)
    (hn : fs.nodeModulesExists = false) :
    getLocalDepenencies fs = ([.installedPackagesMissing], none) := by
  unfold getLocalDepenencies
  simp only [hp, hd, hn, Bool.not_false, if_true]

theorem scanPart_logs_subset (fs : LocalFS) (entries : List (String × String)) :
    ∀ x ∈ (scanPart fs entries).1,
      x = LocalErr.dependencyFolderMissing ∨ x = LocalErr.scanFailed := by
  have hmiss : ∀ x ∈ entries.filterMap (fun p => if fs.depFolderExists p.1 then none
      else some LocalErr.dependencyFolderMissing), x = LocalErr.dependencyFolderMissing := by
    intro x hx
    obtain ⟨p, _, hpe⟩ := List.mem_filterMap.1 hx
    by_cases hf : fs.depFolderExists p.1
    · rw [if_pos hf] at hpe
      cases hpe
    · rw [if_neg hf] at hpe
      exact (Option.some.injEq _ _ ▸ hpe).symm
  unfold scanPart
  cases hs : scanAll fs entries with
  | error e =>
    intro x hx
    rcases List.mem_append.1 hx with hx1 | hx2
    · exact Or.inl (hmiss x hx1)
    · exact Or.inr (by simpa using hx2)
  | ok l =>
    by_cases hc : (!(entries.filterMap (fun p => if fs.depFolderExists p.1 then none
        else some LocalErr.dependencyFolderMissing)).isEmpty
        || l.any (fun d => d.native.isNone)) = true
    · simp only [hc, if_true]
      intro x hx
      exact Or.inl (hmiss x hx)
    · simp only [hc, if_false]
      intro x hx
      exact Or.inl (hmiss x hx)

/-- C7 (amended): the Manifest Loader error ladder of getLocalDepenencies.
A missing manifest reports ManifestMissing; an unparseable manifest reports
ManifestMalformed; a manifest parsing to null aborts with an uncaught
TypeError instead of DependenciesSectionMissing (destructuring null at
utils.ts line 418 throws before the falsy check runs); an absent
dependencies mapping (undefined or null field) reports
DependenciesSectionMissing; a declared version that is not a string
reports DependencyValueInvalid; a missing node_modules directory reports
InstalledPackagesMissing; when none of these conditions hold, none of the
five ladder errors is reported (only missing-folder or scan failures can
abort); and any successfully returned mapping contains every declared
dependency with its declared version string. -/
theorem C7_error_ladder (fs : LocalFS) :
    (fs.packageJsonExists = false → localRunFails fs .manifestMissing) ∧
    (fs.packageJsonExists = true → fs.packageJson = none →
      localRunFails fs .manifestMalformed) ∧
    (fs.packageJsonExists = true → fs.packageJson = some JSValue.null →
      localRunFails fs .typeError ∧ ¬ localRunFails fs .dependenciesSectionMissing) ∧
    (∀ pj, fs.packageJsonExists = true → fs.packageJson = some pj →
      (jsGet pj "dependencies" = some JSValue.undefined ∨
       jsGet pj "dependencies" = some JSValue.null) →
      localRunFails fs .dependenciesSectionMissing) ∧
    (∀ pj dval, fs.packageJsonExists = true → fs.packageJson = some pj →
      jsGet pj "dependencies" = some dval → truthy dval = true →
      (∃ p ∈ jsEntries dval, jsTypeof p.2 ≠ "string") →
      localRunFails fs .dependencyValueInvalid) ∧
    (∀ pj dval, fs.packageJsonExists = true → fs.packageJson = some pj →
      jsGet pj "dependencies" = some dval → truthy dval = true →
      (∀ p ∈ jsEntries dval, jsTypeof p.2 = "string") → fs.nodeModulesExists = false →
      localRunFails fs .installedPackagesMissing) ∧
    (∀ pj dval, fs.packageJsonExists = true → fs.packageJson = some pj →
      jsGet pj "dependencies" = some dval → truthy dval = true →
      (∀ p ∈ jsEntries dval, jsTypeof p.2 = "string") → fs.nodeModulesExists = true →
      ∀ e, localRunFails fs e →
        e = LocalErr.dependencyFolderMissing ∨ e = LocalErr.scanFailed) ∧
    (∀ l pj dval, (getLocalDepenencies fs).2 = some l → fs.packageJson = some pj →
      jsGet pj "dependencies" = some dval →
      ∀ p ∈ jsEntries dval, ∃ d ∈ l, d.name = p.1 ∧ d.version = jsAsString p.2) := by
  refine ⟨?_, ?_, ?_, ?_, ?_, ?_, ?_, ?_⟩
  · intro h1
    have hp : parseStage fs = .error .manifestMissing := by
      unfold parseStage
      rw [h1]
      rfl
    have hg := getLocal_parse_error fs _ hp
    exact ⟨by rw [hg]; simp, by rw [hg]⟩
  · intro h1 h2
    have hp : parseStage fs = .error .manifestMalformed := by
      unfold parseStage
      rw [h1, h2]
      rfl
    have hg := getLocal_parse_error fs _ hp
    exact ⟨by rw [hg]; simp, by rw [hg]⟩
  · intro h1 h2
    have hp : parseStage fs = .ok JSValue.null := parseStage_eq_ok fs _ h1 h2
    have hd : depsStage JSValue.null = .error .typeError := rfl
    have hg := getLocal_deps_error fs _ _ hp hd
    refine ⟨⟨by rw [hg]; simp, by rw [hg]⟩, ?_⟩
    intro hc
    have hmem := hc.1
    rw [hg] at hmem
    simp at hmem
  · intro pj h1 h2 habs
    have hp : parseStage fs = .ok pj := parseStage_eq_ok fs _ h1 h2
    have hd : depsStage pj = .error .dependenciesSectionMissing := by
      unfold depsStage
      rcases habs with h | h <;> rw [h] <;> rfl
    have hg := getLocal_deps_error fs _ _ hp hd
    exact ⟨by rw [hg]; simp, by rw [hg]⟩
  · intro pj dval h1 h2 h3 h4 h5
    have hp : parseStage fs = .ok pj := parseStage_eq_ok fs _ h1 h2
    obtain ⟨p, hpmem, hpne⟩ := h5
    have hany : (jsEntries dval).any (fun p => !(jsTypeof p.2 == "string")) = true :=
      List.any_eq_true.2 ⟨p, hpmem, by simpa using hpne⟩
    have hd : depsStage pj = .error .dependencyValueInvalid := by
      unfold depsStage
      rw [h3]
      simp only [h4, Bool.not_true, Bool.false_eq_true, if_false, hany, if_true]
    have hg := getLocal_deps_error fs _ _ hp hd
    exact ⟨by rw [hg]; simp, by rw [hg]⟩
  · intro pj dval h1 h2 h3 h4 h5 h6
    have hp : parseStage fs = .ok pj := parseStage_eq_ok fs _ h1 h2
    have hd := depsStage_eq_ok pj dval h3 h4 h5
    have hg := getLocal_nomodules fs pj _ hp hd h6
    exact ⟨by rw [hg]; simp, by rw [hg]⟩
  · intro pj dval h1 h2 h3 h4 h5 h6 e he
    have heq := getLocal_eq_scanPart fs pj dval h1 h2 h3 h4 h5 h6
    have hmem := he.1
    rw [heq] at hmem
    exact scanPart_logs_subset fs _ e hmem
  · intro l pj dval hok hpj hdep p hp
    obtain ⟨pj2, dval2, _, hpj2, hdep2, _, _, _, hscan, _⟩ :=
      getLocal_ok_inversion fs l hok
    rw [hpj] at hpj2
    have hpjeq : pj2 = pj := by injection hpj2.symm
    subst hpjeq
    rw [hdep] at hdep2
    have hdeq : dval2 = dval := by injection hdep2.symm
    subst hdeq
    have hshape := scanAll_ok_shape fs _ l hscan
    have hmem : (p.1, jsAsString p.2) ∈ l.map (fun d => (d.name, d.version)) := by
      rw [hshape]
      exact List.mem_map.2 ⟨p, hp, rfl⟩
    obtain ⟨d, hd, hde⟩ := List.mem_map.1 hmem
    rw [Prod.mk.injEq] at hde
    exact ⟨d, hd, hde.1, hde.2⟩

/-- Filesystem for the C7 witness: the manifest file does not exist. -/
def fsC7 : LocalFS := ⟨false, none, false, fun _ => false, fun _ => .error ()⟩

/-- C7 witness: the missing-manifest rung of the ladder at fsC7. -/
theorem C7_error_ladder_witness : localRunFails fsC7 .manifestMissing :=
  (C7_error_ladder fsC7).1 rfl

/-- Filesystem for the C7 counterexample: package.json exists and its
content is the valid JSON text "null". -/
def fsNullManifest : LocalFS :=
  ⟨true, some JSValue.null, true, fun _ => true, fun _ => .ok []⟩

/-- C7 counterexample: the manifest parses to null, so the dependency
mapping is absent, but the run aborts with an uncaught TypeError and does
not fail with DependenciesSectionMissing as the claim demands. -/
theorem C7_counterexample :
    fsNullManifest.packageJson = some JSValue.null ∧
    getLocalDepenencies fsNullManifest = ([LocalErr.typeError], none) ∧
    ¬ localRunFails fsNullManifest LocalErr.dependenciesSectionMissing := by
  refine ⟨rfl, rfl, ?_⟩
  intro hc
  have hmem := hc.1
  rw [show getLocalDepenencies fsNullManifest = ([LocalErr.typeError], none) from rfl] at hmem
  simp at hmem

/-- C8: if the installed directory of any declared dependency is absent
(and the manifest stages pass), the whole run of getLocalDepenencies fails
reporting DependencyFolderMissing — the dependency is not merely skipped —
and checkCompatibility never reaches the reconciliation, whatever the
remote side holds. -/
theorem C8_missing_folder_fatal (fs : LocalFS) (pj dval : JSValue)
    (h1 : fs.packageJsonExists = true) (h2 : fs.packageJson = some pj)
    (h3 : jsGet pj "dependencies" = some dval) (h4 : truthy dval = true)
    (h5 : ∀ p ∈ jsEntries dval, jsTypeof p.2 = "string")
    (h6 : fs.nodeModulesExists = true)
    (h7 : ∃ p ∈ jsEntries dval, fs.depFolderExists p.1 = false) :
    localRunFails fs .dependencyFolderMissing ∧
      ∀ q, (checkCompatibility fs q).2 = none := by
  have heq := getLocal_eq_scanPart fs pj dval h1 h2 h3 h4 h5 h6
  have hex : ∃ p ∈ (jsEntries dval).map (fun p => (p.1, jsAsString p.2)),
      fs.depFolderExists p.1 = false := by
    obtain ⟨p, hp, hpf⟩ := h7
    exact ⟨(p.1, jsAsString p.2), List.mem_map.2 ⟨p, hp, rfl⟩, hpf⟩
  obtain ⟨hmem, hnone⟩ := scanPart_missing_fails fs _ hex
  refine ⟨⟨by rw [heq]; exact hmem, by rw [heq]; exact hnone⟩, ?_⟩
  intro q
  exact checkCompatibility_none_of_local fs q (by rw [heq]; exact hnone)

/-- Filesystem for the C8 witness: dependency "A" is declared but its
node_modules folder is absent. -/
def fsC8 : LocalFS :=
  ⟨true, some (.obj [("dependencies", .obj [("A", .str "1.0.0")])]), true,
    fun _ => false, fun _ => .ok []⟩

/-- C8 witness: the run on fsC8 fails reporting the missing folder and no
compatibility report is produced. -/
theorem C8_missing_folder_fatal_witness :
    localRunFails fsC8 .dependencyFolderMissing ∧
      ∀ q, (checkCompatibility fsC8 q).2 = none :=
  C8_missing_folder_fatal fsC8
    (.obj [("dependencies", .obj [("A", .str "1.0.0")])])
    (.obj [("A", .str "1.0.0")]) rfl rfl rfl rfl
    (by decide) rfl ⟨("A", .str "1.0.0"), by simp [jsEntries], rfl⟩

/-- C9: if reading the file tree of at least one dependency errors (and
the manifest stages pass), getLocalDepenencies fails the whole run
reporting ScanFailed, returns no partial dependency list, and
checkCompatibility produces no compatibility report. -/
theorem C9_scan_failure_terminal (fs : LocalFS) (pj dval : JSValue)
    (h1 : fs.packageJsonExists = true) (h2 : fs.packageJson = some pj)
    (h3 : jsGet pj "dependencies" = some dval) (h4 : truthy dval = true)
    (h5 : ∀ p ∈ jsEntries dval, jsTypeof p.2 = "string")
    (h6 : fs.nodeModulesExists = true)
    (h7 : ∃ p ∈ jsEntries dval, fs.depFolderExists p.1 = true ∧
      fs.listFiles p.1 = .error ()) :
    localRunFails fs .scanFailed ∧ ∀ q, (checkCompatibility fs q).2 = none := by
  have heq := getLocal_eq_scanPart fs pj dval h1 h2 h3 h4 h5 h6
  have hex : ∃ p ∈ (jsEntries dval).map (fun p => (p.1, jsAsString p.2)),
      fs.depFolderExists p.1 = true ∧ fs.listFiles p.1 = .error () := by
    obtain ⟨p, hp, hpf, hpl⟩ := h7
    exact ⟨(p.1, jsAsString p.2), List.mem_map.2 ⟨p, hp, rfl⟩, hpf, hpl⟩
  obtain ⟨hmem, hnone⟩ := scanPart_scanfail fs _ hex
  refine ⟨⟨by rw [heq]; exact hmem, by rw [heq]; exact hnone⟩, ?_⟩
  intro q
  exact checkCompatibility_none_of_local fs q (by rw [heq]; exact hnone)

/-- Filesystem for the C9 witness: dependency "A" is installed but listing
its file tree is rejected (e.g. permission denial). -/
def fsC9 : LocalFS :=
  ⟨true, some (.obj [("dependencies", .obj [("A", .str "1.0.0")])]), true,
    fun _ => true, fun _ => .error ()⟩

/-- C9 witness: the run on fsC9 fails reporting the scan failure and no
compatibility report is produced. -/
theorem C9_scan_failure_terminal_witness :
    localRunFails fsC9 .scanFailed ∧ ∀ q, (checkCompatibility fsC9 q).2 = none :=
  C9_scan_failure_terminal fsC9
    (.obj [("dependencies", .obj [("A", .str "1.0.0")])])
    (.obj [("A", .str "1.0.0")]) rfl rfl rfl rfl
    (by decide) rfl ⟨("A", .str "1.0.0"), by simp [jsEntries], rfl, rfl⟩

/-- C10: a bound release whose native_packages field is absent (undefined)
or null makes getRemoteDepenencies fail with NativeMetadataMissing and the
reconciler is never invoked; a present but empty native-package list is
not an error and yields an empty remote map. -/
theorem C10_missing_metadata_vs_empty (ver : JSValue) :
    ((jsGet ver "native_packages" = some JSValue.undefined ∨
      jsGet ver "native_packages" = some JSValue.null) →
      getRemoteDepenencies (.ok ⟨ver⟩) = .error .nativeMetadataMissing ∧
        ∀ fs, (checkCompatibility fs (.ok ⟨ver⟩)).2 = none) ∧
    (jsGet ver "native_packages" = some (JSValue.arr []) →
      getRemoteDepenencies (.ok ⟨ver⟩) = .ok []) := by
  constructor
  · intro h
    have hrem : getRemoteDepenencies (.ok ⟨ver⟩) = .error .nativeMetadataMissing := by
      dsimp only [getRemoteDepenencies]
      rcases h with h | h <;> rw [h] <;> rfl
    exact ⟨hrem, fun fs => checkCompatibility_none_of_remote fs _ _ hrem⟩
  · intro h
    dsimp only [getRemoteDepenencies]
    rw [h]
    rfl

/-- C10 witness: a release record with no native_packages field errors,
and one carrying an empty list yields the empty map. -/
theorem C10_missing_metadata_vs_empty_witness :
    (getRemoteDepenencies (.ok ⟨.obj []⟩) = .error .nativeMetadataMissing ∧
      ∀ fs, (checkCompatibility fs (.ok ⟨.obj []⟩)).2 = none) ∧
    getRemoteDepenencies (.ok ⟨.obj [("native_packages", .arr [])]⟩) = .ok [] :=
  ⟨(C10_missing_metadata_vs_empty (.obj [])).1 (Or.inl rfl),
   (C10_missing_metadata_vs_empty (.obj [("native_packages", .arr [])])).2 rfl⟩
